import Mathlib

/-!
Verification development for `src/jtr/jack/simple_mcqa.py`.

The file shallow-embeds the three components of the simple multiple-choice
question-answering reader: the input module (`SimpleMCInputModule`), the
scoring model (`SimpleMCModelModule`) and the output decoder
(`ExampleOutputModule`).  Tensors are embedded as nested lists, float32
arithmetic as exact rationals (for the scoring pipeline) and reals (for the
softmax-cross-entropy loss), and Python exceptions as `Except String`.
The vocabulary/tokenization pipeline (`jtr.pipelines.pipeline`) is code of
the repository that is not part of the sources at hand; it is modelled from
the specification and marked as such in its doc comment.
-/

namespace SimpleMCQA

/-- Data model: a question record, as consumed by the reader.  `question` is
the query string, `support` the list of support passages,
`atomic_candidates` the candidate answer strings fed to the input module and
`candidates` the candidate list read back by the output decoder. -/
structure Question where
  question : String
  support : List String
  atomic_candidates : List String
  candidates : List String
deriving DecidableEq

instance : Inhabited Question := ⟨⟨"", [], [], []⟩⟩

/-- Data model: an answer with a confidence score (`AnswerWithDefault`). -/
structure Answer where
  text : String
  score : ℚ
deriving DecidableEq

instance : Inhabited Answer := ⟨⟨"", 0⟩⟩

/-- The tensor ports appearing in the module declarations of the source:
`Ports.Input.multiple_support`, `Ports.Input.question`,
`Ports.Input.atomic_candidates`, `Ports.Targets.candidate_labels`,
`Ports.Prediction.candidate_scores` and `Ports.loss`. -/
inductive TensorPort where
  | multiple_support
  | question
  | atomic_candidates
  | candidate_labels
  | candidate_scores
  | loss
deriving DecidableEq

/-- Elementwise addition of two embedding vectors (one entry per embedding
dimension); models the pointwise `+` of two float32 rows. -/
def vecAdd (v w : List ℚ) : List ℚ := List.zipWith (fun a b => a + b) v w

/-- Sum of a list of embedding vectors of length `d`; models
`tf.reduce_sum` along a gathered token axis. -/
def vecSum (d : Nat) (vs : List (List ℚ)) : List ℚ :=
  vs.foldr vecAdd (List.replicate d 0)

/-- Dot product over the embedding dimension; models the contraction
`tf.einsum` performs for one batch element and one candidate. -/
def dot (v w : List ℚ) : ℚ := (List.zipWith (fun a b => a * b) v w).sum

/-- Line `embedded_supports = tf.reduce_sum(tf.gather(embeddings,
multiple_support), (1, 2))` of `create_output`: per example, gather the
embedding row of every support token (over all supports) and sum them. -/
def embeddedSupports (d : Nat) (emb : Nat → List ℚ)
    (multiple_support : List (List (List Nat))) : List (List ℚ) :=
  multiple_support.map (fun supports => vecSum d (supports.flatten.map emb))

/-- Line `embedded_question = tf.reduce_sum(tf.gather(embeddings, question),
(1,))` of `create_output`: per example, sum the embeddings of the question
tokens. -/
def embeddedQuestion (d : Nat) (emb : Nat → List ℚ)
    (question : List (List Nat)) : List (List ℚ) :=
  question.map (fun q => vecSum d (q.map emb))

/-- Line `embedded_supports_and_question = embedded_supports +
embedded_question` of `create_output`: the per-example context vector. -/
def embeddedSupportsAndQuestion (d : Nat) (emb : Nat → List ℚ)
    (multiple_support : List (List (List Nat))) (question : List (List Nat)) :
    List (List ℚ) :=
  List.zipWith vecAdd (embeddedSupports d emb multiple_support)
    (embeddedQuestion d emb question)

/-- Line `embedded_candidates = tf.gather(embeddings, question)` of
`create_output`.  Note that the source gathers the `question` tensor here,
not `atomic_candidates`. -/
def embeddedCandidates (emb : Nat → List ℚ) (question : List (List Nat)) :
    List (List (List ℚ)) :=
  question.map (fun q => q.map emb)

/-- Method `SimpleMCModelModule.create_output`: the candidate-score tensor, i.e.
the value bound to `Ports.Prediction.candidate_scores`.  The einsum
`"bce,be->bc"` contracts each gathered row with the context vector.  The
`atomic_candidates` argument is accepted, as in the source, but the gather
feeding the contraction reads the `question` tensor. -/
def create_output (d : Nat) (emb : Nat → List ℚ)
    (multiple_support : List (List (List Nat))) (question : List (List Nat))
    (atomic_candidates : List (List Nat)) : List (List ℚ) :=
  List.zipWith (fun cands ctx => cands.map (fun c => dot c ctx))
    (embeddedCandidates emb question)
    (embeddedSupportsAndQuestion d emb multiple_support question)

/-- Candidate scoring as the specification words it (refinement reference,
stated for comparison with `create_output`): embed each candidate answer
token id from the `atomic_candidates` tensor and contract it with the
context vector. -/
def createOutputSpecIntent (d : Nat) (emb : Nat → List ℚ)
    (multiple_support : List (List (List Nat))) (question : List (List Nat))
    (atomic_candidates : List (List Nat)) : List (List ℚ) :=
  List.zipWith (fun cands ctx => cands.map (fun c => dot c ctx))
    (atomic_candidates.map (fun cs => cs.map emb))
    (embeddedSupportsAndQuestion d emb multiple_support question)

/-- Model of `tf.nn.softmax_cross_entropy_with_logits` for one example: the
negative sum, over the class axis, of `label * log (softmax logit)`. -/
noncomputable def softmaxCrossEntropyWithLogits (logits labels : List ℝ) : ℝ :=
  -(List.zipWith
      (fun label logit =>
        label * Real.log (Real.exp logit / (logits.map Real.exp).sum))
      labels logits).sum

/-- Cast a row of rational scores to real logits. -/
def rowToReal (v : List ℚ) : List ℝ := v.map (fun x => (x : ℝ))

/-- The mapping returned by `create_training_output`: the loss port and,
spread from the `create_output` result, the candidate-score port. -/
structure TrainingOutput where
  loss : List ℝ
  candidate_scores : List (List ℚ)

/-- Method `SimpleMCModelModule.create_training_output`: call `create_output`, read
the score tensor, and bind `Ports.loss` to
`tf.nn.softmax_cross_entropy_with_logits(scores, candidate_labels)`, which
is a per-example vector (no batch reduction is applied). -/
noncomputable def create_training_output (d : Nat) (emb : Nat → List ℚ)
    (multiple_support : List (List (List Nat))) (question : List (List Nat))
    (atomic_candidates : List (List Nat)) (candidate_labels : List (List ℝ)) :
    TrainingOutput :=
  let scores := create_output d emb multiple_support question atomic_candidates
  { loss := List.zipWith
      (fun srow lrow => softmaxCrossEntropyWithLogits (rowToReal srow) lrow)
      scores candidate_labels
    candidate_scores := scores }

/-- Port list `SimpleMCInputModule.training_ports`. -/
def SimpleMCInputModule.training_ports : List TensorPort :=
  [TensorPort.candidate_labels]

/-- Port list `SimpleMCInputModule.output_ports`. -/
def SimpleMCInputModule.output_ports : List TensorPort :=
  [TensorPort.multiple_support, TensorPort.question,
   TensorPort.atomic_candidates]

/-- Port list `SimpleMCModelModule.input_ports`. -/
def SimpleMCModelModule.input_ports : List TensorPort :=
  [TensorPort.multiple_support, TensorPort.question,
   TensorPort.atomic_candidates]

/-- Port list `SimpleMCModelModule.training_input_ports`, defined in the
source as `self.input_ports + [Ports.Targets.candidate_labels]`. -/
def SimpleMCModelModule.training_input_ports : List TensorPort :=
  SimpleMCModelModule.input_ports ++ [TensorPort.candidate_labels]

/-- Port list `SimpleMCModelModule.output_ports`. -/
def SimpleMCModelModule.output_ports : List TensorPort :=
  [TensorPort.candidate_scores]

/-- Port list `SimpleMCModelModule.training_output_ports`. -/
def SimpleMCModelModule.training_output_ports : List TensorPort :=
  [TensorPort.loss]

/-- The shared vocabulary: an association list from token string to id,
the reserved unknown id, and the next id to hand out while fitting. -/
structure Vocab where
  entries : List (String × Nat)
  unkId : Nat
  nextId : Nat
deriving DecidableEq

/-- Look a token up in the vocabulary; an unseen token resolves to the
reserved unknown id. -/
def lookupToken (vocab : Vocab) (t : String) : Nat :=
  (vocab.entries.lookup t).getD vocab.unkId

/-- Add a token to the vocabulary if it is not present yet (fit phase). -/
def addToken (vocab : Vocab) (t : String) : Vocab :=
  if (vocab.entries.lookup t).isSome then vocab
  else { vocab with
         entries := vocab.entries ++ [(t, vocab.nextId)]
         nextId := vocab.nextId + 1 }

/-- The raw corpus dictionary built by `SimpleMCInputModule.preprocess`:
keys `support`, `question`, `candidates` and, in training mode only, the
key `answers`. -/
structure Corpus where
  support : List (List String)
  question : List String
  candidates : List (List String)
  answers : Option (List (List String))
deriving DecidableEq

/-- The numericized corpus returned by the pipeline: every string replaced
by token-id sequences (support and question are tokenized; candidates and
answers are atomic, one id per string). -/
structure NumCorpus where
  support : List (List (List Nat))
  question : List (List Nat)
  candidates : List (List Nat)
  answers : Option (List (List Nat))
deriving DecidableEq

/-- Every token of the corpus, in the order the fit phase sees them. -/
def corpusTokens (tokenize : String → List String) (c : Corpus) :
    List String :=
  c.support.flatten.flatMap tokenize ++ c.question.flatMap tokenize ++
    c.candidates.flatten ++ (c.answers.getD []).flatten

/-- Fit the vocabulary on every token of the corpus. -/
def fitCorpus (tokenize : String → List String) (c : Corpus) (vocab : Vocab) :
    Vocab :=
  (corpusTokens tokenize c).foldl addToken vocab

/-- Numericize the corpus with a (now fixed) vocabulary. -/
def numericizeCorpus (tokenize : String → List String) (vocab : Vocab)
    (c : Corpus) : NumCorpus :=
  { support := c.support.map
      (fun ss => ss.map (fun s => (tokenize s).map (lookupToken vocab)))
    question := c.question.map (fun s => (tokenize s).map (lookupToken vocab))
    candidates := c.candidates.map (fun cs => cs.map (lookupToken vocab))
    answers := c.answers.map (fun ans => ans.map
      (fun a => a.map (lookupToken vocab))) }

/-- Modelled from the spec: `jtr.pipelines.pipeline` is code of this
repository that is not among the sources at hand (only its caller
`SimpleMCInputModule.preprocess` is).  Per the specification it tokenizes
and numericizes the corpus against the shared vocabulary: when `test_time`
is true the vocabulary is frozen and any unseen token resolves to the
reserved unknown id; otherwise every token seen is first added to the
vocabulary, which grows.  The result is the numericized corpus together
with the vocabulary state after the call. -/
def pipelineModel (tokenize : String → List String) (c : Corpus)
    (vocab : Vocab) (test_time : Bool) : NumCorpus × Vocab :=
  let vocab' := if test_time then vocab else fitCorpus tokenize c vocab
  (numericizeCorpus tokenize vocab' c, vocab')

/-- Method `SimpleMCInputModule.preprocess` with `test_time=True`: build the corpus
dictionary without an `answers` key and run the pipeline on it.  The body
performs no validation of the examples; the `Except` layer records that the
translated code has no failure path of its own. -/
def preprocessTest (tokenize : String → List String) (vocab : Vocab)
    (data : List Question) : Except String (NumCorpus × Vocab) :=
  Except.ok (pipelineModel tokenize
    { support := data.map Question.support
      question := data.map Question.question
      candidates := data.map Question.atomic_candidates
      answers := none } vocab true)

/-- Method `SimpleMCInputModule.preprocess` with the default `test_time=False`:
build the corpus dictionary including the `answers` key (one singleton list
`[y.text]` per example) and run the pipeline in fit mode. -/
def preprocessTrain (tokenize : String → List String) (vocab : Vocab)
    (data : List (Question × Answer)) : Except String (NumCorpus × Vocab) :=
  Except.ok (pipelineModel tokenize
    { support := data.map (fun xy => xy.1.support)
      question := data.map (fun xy => xy.1.question)
      candidates := data.map (fun xy => xy.1.atomic_candidates)
      answers := some (data.map (fun xy => [xy.2.text])) } vocab false)

/-- The `x_dict` mapping built by `SimpleMCInputModule.__call__`: the three
input ports and their arrays. -/
structure XDict where
  multiple_support : List (List (List Nat))
  question : List (List Nat)
  atomic_candidates : List (List Nat)
deriving DecidableEq

/-- Method `SimpleMCInputModule.__call__`: preprocess the questions at test time
and expose the three input ports.  The vocabulary component of the result
is the state of `self.vocab` after the call. -/
def inputModuleCall (tokenize : String → List String) (vocab : Vocab)
    (inputs : List Question) : Except String (XDict × Vocab) :=
  match preprocessTest tokenize vocab inputs with
  | Except.error e => Except.error e
  | Except.ok (corpus, vocab') =>
      Except.ok ({ multiple_support := corpus.support
                   question := corpus.question
                   atomic_candidates := corpus.candidates }, vocab')

/-- The keys of the corpus dictionary returned by `preprocess`, in insertion
order; iterating the dictionary (as tuple unpacking does) yields them. -/
def numCorpusKeys (c : NumCorpus) : List String :=
  ["support", "question", "candidates"] ++
    (if c.answers.isSome then ["answers"] else [])

/-- Python tuple unpacking `a, b = xs` of an iterable: succeeds exactly on a
two-element sequence, otherwise raises a `ValueError`. -/
def unpack2 {α : Type} (xs : List α) : Except String (α × α) :=
  match xs with
  | [a, b] => Except.ok (a, b)
  | _ => Except.error "ValueError: too many values to unpack (expected 2)"

/-- The `xy_dict` mapping that `dataset_generator` would build: the three
input ports plus the `candidate_labels` target port. -/
structure XYDict where
  multiple_support : List (List (List Nat))
  question : List (List Nat)
  atomic_candidates : List (List Nat)
  candidate_labels : List (List Nat)
deriving DecidableEq

/-- Method `SimpleMCInputModule.dataset_generator`: its first statement is
`corpus, _ = self.preprocess(dataset)`.  `preprocess` returns the corpus
dictionary itself, so the unpacking iterates the dictionary keys; with the
four training-mode keys it raises a `ValueError`.  Were the unpacking to
succeed, `corpus` would be bound to a string key and the subsequent
`corpus["support"]` indexing would raise a `TypeError`, so the `xy_dict`
construction and `get_batches` call are never reached.  The `is_eval`
argument is never read. -/
def dataset_generator (tokenize : String → List String) (vocab : Vocab)
    (dataset : List (Question × Answer)) (is_eval : Bool) :
    Except String XYDict :=
  match preprocessTrain tokenize vocab dataset with
  | Except.error e => Except.error e
  | Except.ok (corpus, _) =>
      match unpack2 (numCorpusKeys corpus) with
      | Except.error e => Except.error e
      | Except.ok _ =>
          Except.error "TypeError: string indices must be integers"

/-- Model of `np.argmax` on one row: the index of the first occurrence of
the maximum value; `none` on an empty row (numpy raises there). -/
def argmaxFirst (row : List ℚ) : Option Nat :=
  match row with
  | [] => none
  | _ :: _ => some (row.findIdx (fun v => decide (∀ w ∈ row, w ≤ v)))

/-- Collect a list of optional values, failing (as `np.argmax` does on an
empty axis) when any entry is missing. -/
def allSome : List (Option Nat) → Except String (List Nat)
  | [] => Except.ok []
  | none :: _ =>
      Except.error "ValueError: attempt to get argmax of an empty sequence"
  | some w :: rest =>
      match allSome rest with
      | Except.error e => Except.error e
      | Except.ok ws => Except.ok (w :: ws)

/-- Python sequence indexing `xs[i]`: raises an `IndexError` when the index
is out of range. -/
def exGet {α : Type} (xs : List α) (i : Nat) : Except String α :=
  match xs.get? i with
  | some v => Except.ok v
  | none => Except.error "IndexError: index out of range"

/-- The loop body of `ExampleOutputModule.__call__`: walk the questions in
order, pairing the i-th question with `winning_indices[i]` and the i-th
score row; running past the end of the score data is an `IndexError`, and
each iteration reads `candidate_scores[i, winning_index]` and
`question.candidates[winning_index]`. -/
def decodeAnswers : List Question → List Nat → List (List ℚ) →
    Except String (List Answer)
  | [], _, _ => Except.ok []
  | _ :: _, [], _ => Except.error "IndexError: index out of range"
  | _ :: _, _, [] => Except.error "IndexError: index out of range"
  | q :: qs, w :: ws, row :: rows =>
      match exGet row w with
      | Except.error e => Except.error e
      | Except.ok s =>
          match exGet q.candidates w with
          | Except.error e => Except.error e
          | Except.ok text =>
              match decodeAnswers qs ws rows with
              | Except.error e => Except.error e
              | Except.ok rest => Except.ok ({ text := text, score := s } :: rest)

/-- Method `ExampleOutputModule.__call__`: compute
`winning_indices = np.argmax(candidate_scores, axis=1)` and then build one
`AnswerWithDefault(question.candidates[winning_index], score=score)` per
input question. -/
def exampleOutputCall (inputs : List Question) (candidate_scores : List (List ℚ)) :
    Except String (List Answer) :=
  match allSome (candidate_scores.map argmaxFirst) with
  | Except.error e => Except.error e
  | Except.ok winning_indices => decodeAnswers inputs winning_indices candidate_scores

/-- The winning index per row, once every row is known to be nonempty. -/
def winningOf (scores : List (List ℚ)) : List Nat :=
  scores.map (fun r => (argmaxFirst r).getD 0)

/-- Concrete one-dimensional embedding table used for evaluations: token id
`t` embeds as the single-entry row `[t]`. -/
def embEx : Nat → List ℚ := fun t => [(t : ℚ)]

/-- Concrete tokenizer for evaluations: every string is a single token. -/
def tok0 : String → List String := fun s => [s]

/-- Concrete vocabulary for evaluations: `hello` has id 1, unknown id 0. -/
def v0 : Vocab := ⟨[("hello", 1)], 0, 2⟩

/-- Concrete well-formed question for evaluations. -/
def q0 : Question := ⟨"q", ["hello"], ["hello"], ["hello"]⟩

/-- The port arrays `inputModuleCall tok0 v0 [q0]` produces. -/
def out0 : XDict := ⟨[[[1]]], [[0]], [[1]]⟩

/-- Concrete malformed question: no support passage and an empty candidate
list. -/
def qBad : Question := ⟨"which is it", [], [], []⟩

/-- Concrete answer for evaluations. -/
def ans0 : Answer := ⟨"a", 1⟩

/-- Concrete question with two candidates, for the decoder evaluations. -/
def q1 : Question := ⟨"q", [], ["x", "y"], ["x", "y"]⟩

/-- Claim C1 names a batch where the bug is visible: one support token `0`,
question tokens `[1, 2]`, candidate tokens `[3, 4, 5]`, embedding `embEx`. -/
def scoresActualC1 : List (List ℚ) :=
  create_output 1 embEx [[[0]]] [[1, 2]] [[3, 4, 5]]

/-- The scores the specification demands on the same batch. -/
def scoresIntendedC1 : List (List ℚ) :=
  createOutputSpecIntent 1 embEx [[[0]]] [[1, 2]] [[3, 4, 5]]

/-- Claim C1 (code bug): the claim says the score tensor has one column per
candidate, each entry the dot product of the candidate embedding with the
context vector.  The source instead gathers the `question` tensor for
`embedded_candidates` (contradicting its own shape comment
`[batch_size, num_candidates, emb_dim]`), so on a batch with two question
tokens and three candidates it yields `[[3, 6]]` — one column per question
token — while the specified computation yields `[[9, 12, 15]]`. -/
theorem create_output_gathers_question_not_candidates :
    scoresActualC1 = [[3, 6]] ∧
    scoresIntendedC1 = [[9, 12, 15]] ∧
    scoresActualC1 ≠ scoresIntendedC1 ∧
    (scoresActualC1.getD 0 []).length = 2 ∧
    (([[3, 4, 5]] : List (List Nat)).getD 0 []).length = 3 := by
  have hact : scoresActualC1 = [[3, 6]] := by
    norm_num [scoresActualC1, create_output, embeddedCandidates,
      embeddedSupportsAndQuestion, embeddedSupports, embeddedQuestion,
      vecSum, vecAdd, dot, embEx]
  have hint : scoresIntendedC1 = [[9, 12, 15]] := by
    norm_num [scoresIntendedC1, createOutputSpecIntent,
      embeddedSupportsAndQuestion, embeddedSupports, embeddedQuestion,
      vecSum, vecAdd, dot, embEx]
  refine ⟨hact, hint, ?_, by rw [hact]; rfl, rfl⟩
  rw [hact, hint]
  norm_num

/-- Claim C3 counterexample: on a collection containing a malformed example
(`qBad` has no support and an empty candidate list) `preprocess` does not
raise a validation error: both the inference-mode and the training-mode
calls return successfully. -/
theorem preprocess_accepts_malformed_example :
    (preprocessTest tok0 v0 [qBad]).isOk = true ∧
    (preprocessTrain tok0 v0 [(qBad, ans0)]).isOk = true :=
  ⟨rfl, rfl⟩

/-- Claim C3 amended: `SimpleMCInputModule.preprocess` performs no
validation at all; for every input collection, malformed examples included,
it returns successfully in both inference and training mode, passing every
example to the numericization pipeline. -/
theorem preprocess_never_validates (tokenize : String → List String)
    (vocab : Vocab) (dataT : List Question)
    (dataL : List (Question × Answer)) :
    (preprocessTest tokenize vocab dataT).isOk = true ∧
    (preprocessTrain tokenize vocab dataL).isOk = true :=
  ⟨rfl, rfl⟩

/-- Unfolding equation for `vecSum` on a cons cell. -/
theorem vecSum_cons (d : Nat) (v : List ℚ) (vs : List (List ℚ)) :
    vecSum d (v :: vs) = vecAdd v (vecSum d vs) := rfl

/-- The length of an elementwise sum is the minimum of the lengths. -/
theorem length_vecAdd (v w : List ℚ) :
    (vecAdd v w).length = min v.length w.length :=
  List.length_zipWith _ _ _

/-- Summing vectors of length `d` yields a vector of length `d`. -/
theorem length_vecSum (d : Nat) (vs : List (List ℚ))
    (h : ∀ v ∈ vs, v.length = d) : (vecSum d vs).length = d := by
  induction vs with
  | nil => simp [vecSum]
  | cons v vs ih =>
    rw [vecSum_cons, length_vecAdd, h v (List.mem_cons_self _ _),
      ih (fun w hw => h w (List.mem_cons_of_mem _ hw))]
    exact Nat.min_self d

/-- Entry `k` of an elementwise sum is the sum of the entries. -/
theorem getD_vecAdd (v w : List ℚ) (k : Nat) (hv : k < v.length)
    (hw : k < w.length) :
    (vecAdd v w).getD k 0 = v.getD k 0 + w.getD k 0 := by
  have hk : k < (vecAdd v w).length := by rw [length_vecAdd]; omega
  rw [List.getD_eq_getElem _ _ hk, List.getD_eq_getElem _ _ hv,
    List.getD_eq_getElem _ _ hw]
  exact List.getElem_zipWith

/-- Entry `k` of `vecSum` is the sum of the entries at `k`. -/
theorem getD_vecSum (d : Nat) (vs : List (List ℚ)) (k : Nat)
    (h : ∀ v ∈ vs, v.length = d) (hk : k < d) :
    (vecSum d vs).getD k 0 = (vs.map (fun v => v.getD k 0)).sum := by
  induction vs with
  | nil =>
    have hk' : k < (List.replicate d (0 : ℚ)).length := by simpa using hk
    rw [show vecSum d ([] : List (List ℚ)) = List.replicate d 0 from rfl,
      List.getD_eq_getElem _ _ hk']
    simp
  | cons v vs ih =>
    have hv := h v (List.mem_cons_self _ _)
    have htail : ∀ w ∈ vs, w.length = d :=
      fun w hw => h w (List.mem_cons_of_mem _ hw)
    rw [vecSum_cons,
      getD_vecAdd _ _ _ (hv ▸ hk) (by rw [length_vecSum d vs htail]; exact hk),
      ih htail]
    simp

/-- Indexing a `zipWith vecAdd` of two batch matrices. -/
theorem getD_zipWith_vecAdd (A B : List (List ℚ)) (b : Nat)
    (hA : b < A.length) (hB : b < B.length) :
    (List.zipWith vecAdd A B).getD b [] = vecAdd (A.getD b []) (B.getD b []) := by
  have hb : b < (List.zipWith vecAdd A B).length := by
    rw [List.length_zipWith]; omega
  rw [List.getD_eq_getElem _ _ hb, List.getD_eq_getElem _ _ hA,
    List.getD_eq_getElem _ _ hB]
  exact List.getElem_zipWith

/-- Every embedding row gathered by `emb` has length `d` when the embedding
table is well formed. -/
theorem mem_map_emb_length (d : Nat) (emb : Nat → List ℚ)
    (hwf : ∀ t, (emb t).length = d) (ts : List Nat) :
    ∀ v ∈ ts.map emb, v.length = d := by
  intro v hv
  obtain ⟨t, _, rfl⟩ := List.mem_map.1 hv
  exact hwf t

/-- Claim C4: for every batch, entrywise, the support representation of
example `b` is the sum of its support-token embeddings over both the token
axis and the multi-support axis, the question representation is the sum of
its question-token embeddings over the token axis, and the context vector
is the elementwise sum of the two. -/
theorem aggregation_by_summation (d : Nat) (emb : Nat → List ℚ)
    (ms : List (List (List Nat))) (q : List (List Nat)) (b k : Nat)
    (hwf : ∀ t, (emb t).length = d) (hb : b < ms.length) (hbq : b < q.length)
    (hk : k < d) :
    ((embeddedSupports d emb ms).getD b []).getD k 0 =
        (((ms.getD b []).flatten).map (fun t => (emb t).getD k 0)).sum ∧
    ((embeddedQuestion d emb q).getD b []).getD k 0 =
        ((q.getD b []).map (fun t => (emb t).getD k 0)).sum ∧
    ((embeddedSupportsAndQuestion d emb ms q).getD b []).getD k 0 =
      ((embeddedSupports d emb ms).getD b []).getD k 0 +
      ((embeddedQuestion d emb q).getD b []).getD k 0 := by
  have hmsb : ms.getD b [] = ms[b] := List.getD_eq_getElem ms [] hb
  have hqb : q.getD b [] = q[b] := List.getD_eq_getElem q [] hbq
  have hS : (embeddedSupports d emb ms).getD b [] =
      vecSum d ((ms[b]).flatten.map emb) := by
    have hb' : b < (embeddedSupports d emb ms).length := by
      simpa [embeddedSupports] using hb
    rw [List.getD_eq_getElem _ _ hb']
    simp [embeddedSupports]
  have hQ : (embeddedQuestion d emb q).getD b [] =
      vecSum d ((q[b]).map emb) := by
    have hb' : b < (embeddedQuestion d emb q).length := by
      simpa [embeddedQuestion] using hbq
    rw [List.getD_eq_getElem _ _ hb']
    simp [embeddedQuestion]
  have hSlen : ((embeddedSupports d emb ms).getD b []).length = d := by
    rw [hS]; exact length_vecSum _ _ (mem_map_emb_length d emb hwf _)
  have hQlen : ((embeddedQuestion d emb q).getD b []).length = d := by
    rw [hQ]; exact length_vecSum _ _ (mem_map_emb_length d emb hwf _)
  refine ⟨?_, ?_, ?_⟩
  · rw [hS, hmsb, getD_vecSum d _ k (mem_map_emb_length d emb hwf _) hk,
      List.map_map]
    rfl
  · rw [hQ, hqb, getD_vecSum d _ k (mem_map_emb_length d emb hwf _) hk,
      List.map_map]
    rfl
  · show ((List.zipWith vecAdd (embeddedSupports d emb ms)
      (embeddedQuestion d emb q)).getD b []).getD k 0 = _
    rw [getD_zipWith_vecAdd _ _ b (by simpa [embeddedSupports] using hb)
      (by simpa [embeddedQuestion] using hbq)]
    exact getD_vecAdd _ _ k (by rw [hSlen]; exact hk) (by rw [hQlen]; exact hk)

/-- Witness for claim C4 at a concrete batch. -/
theorem aggregation_by_summation_witness :
    ((embeddedSupports 1 embEx [[[0]]]).getD 0 []).getD 0 0 =
        ((([[[0]]] : List (List (List Nat))).getD 0 []).flatten.map
          (fun t => (embEx t).getD 0 0)).sum ∧
    ((embeddedQuestion 1 embEx [[1]]).getD 0 []).getD 0 0 =
        ((([[1]] : List (List Nat)).getD 0 []).map
          (fun t => (embEx t).getD 0 0)).sum ∧
    ((embeddedSupportsAndQuestion 1 embEx [[[0]]] [[1]]).getD 0 []).getD 0 0 =
      ((embeddedSupports 1 embEx [[[0]]]).getD 0 []).getD 0 0 +
      ((embeddedQuestion 1 embEx [[1]]).getD 0 []).getD 0 0 :=
  aggregation_by_summation 1 embEx [[[0]]] [[1]] 0 0 (fun _ => rfl)
    (by decide) (by decide) (by decide)

/-- Claim C5: `create_training_output` first computes the candidate scores
via `create_output`, then binds the loss port to the per-example
softmax-cross-entropy between those scores (as logits) and the one-hot
label rows, with no mean or sum over the batch applied: the loss is a
vector with one entry per example. -/
theorem training_output_unreduced (d : Nat) (emb : Nat → List ℚ)
    (ms : List (List (List Nat))) (q : List (List Nat))
    (ac : List (List Nat)) (labels : List (List ℝ))
    (h : labels.length = (create_output d emb ms q ac).length) :
    (create_training_output d emb ms q ac labels).candidate_scores =
      create_output d emb ms q ac ∧
    (create_training_output d emb ms q ac labels).loss.length =
      (create_output d emb ms q ac).length ∧
    ∀ b, b < (create_output d emb ms q ac).length →
      (create_training_output d emb ms q ac labels).loss.getD b 0 =
        softmaxCrossEntropyWithLogits
          (rowToReal ((create_output d emb ms q ac).getD b []))
          (labels.getD b []) := by
  refine ⟨rfl, ?_, ?_⟩
  · show (List.zipWith _ (create_output d emb ms q ac) labels).length = _
    rw [List.length_zipWith, h]
    exact Nat.min_self _
  · intro b hb
    have hb1 : b < (create_output d emb ms q ac).length := hb
    have hb2 : b < labels.length := by omega
    have hbz : b <
        (List.zipWith
          (fun srow lrow => softmaxCrossEntropyWithLogits (rowToReal srow) lrow)
          (create_output d emb ms q ac) labels).length := by
      rw [List.length_zipWith]; omega
    show (List.zipWith
        (fun srow lrow => softmaxCrossEntropyWithLogits (rowToReal srow) lrow)
        (create_output d emb ms q ac) labels).getD b 0 = _
    rw [List.getD_eq_getElem _ _ hbz, List.getD_eq_getElem _ _ hb1,
      List.getD_eq_getElem _ _ hb2]
    exact List.getElem_zipWith

/-- Witness for claim C5 at a concrete batch. -/
theorem training_output_unreduced_witness :
    (create_training_output 1 embEx [[[0]]] [[1]] [[2]] [[(1 : ℝ)]]).candidate_scores =
      create_output 1 embEx [[[0]]] [[1]] [[2]] ∧
    (create_training_output 1 embEx [[[0]]] [[1]] [[2]] [[(1 : ℝ)]]).loss.length =
      (create_output 1 embEx [[[0]]] [[1]] [[2]]).length ∧
    ∀ b, b < (create_output 1 embEx [[[0]]] [[1]] [[2]]).length →
      (create_training_output 1 embEx [[[0]]] [[1]] [[2]] [[(1 : ℝ)]]).loss.getD b 0 =
        softmaxCrossEntropyWithLogits
          (rowToReal ((create_output 1 embEx [[[0]]] [[1]] [[2]]).getD b []))
          (([[(1 : ℝ)]] : List (List ℝ)).getD b []) :=
  training_output_unreduced 1 embEx [[[0]]] [[1]] [[2]] [[(1 : ℝ)]] rfl

/-- The inference-time call always succeeds and returns the vocabulary it
was given, unchanged. -/
theorem inputModuleCall_ok (tokenize : String → List String) (vocab : Vocab)
    (inputs : List Question) :
    inputModuleCall tokenize vocab inputs =
      Except.ok
        ({ multiple_support :=
             (numericizeCorpus tokenize vocab
               { support := inputs.map Question.support
                 question := inputs.map Question.question
                 candidates := inputs.map Question.atomic_candidates
                 answers := none }).support
           question :=
             (numericizeCorpus tokenize vocab
               { support := inputs.map Question.support
                 question := inputs.map Question.question
                 candidates := inputs.map Question.atomic_candidates
                 answers := none }).question
           atomic_candidates :=
             (numericizeCorpus tokenize vocab
               { support := inputs.map Question.support
                 question := inputs.map Question.question
                 candidates := inputs.map Question.atomic_candidates
                 answers := none }).candidates }, vocab) := rfl

/-- Claim C6: the inference-only transform leaves the vocabulary unchanged
(the vocabulary is frozen after the fit phase), and a token unseen during
fit is mapped to the reserved unknown id instead of growing the vocabulary
or raising. -/
theorem inference_transform_keeps_vocab_frozen
    (tokenize : String → List String) (vocab : Vocab)
    (inputs : List Question) (t : String)
    (hunseen : vocab.entries.lookup t = none) :
    (∀ out vocabAfter,
        inputModuleCall tokenize vocab inputs = Except.ok (out, vocabAfter) →
          vocabAfter = vocab) ∧
    lookupToken vocab t = vocab.unkId := by
  constructor
  · intro out v' hcall
    rw [inputModuleCall_ok] at hcall
    injection hcall with hpair
    exact (congrArg Prod.snd hpair).symm
  · simp [lookupToken, hunseen]

/-- Witness for claim C6 at a concrete vocabulary and input list. -/
theorem inference_transform_keeps_vocab_frozen_witness :
    (∀ out vocabAfter,
        inputModuleCall tok0 v0 [q0] = Except.ok (out, vocabAfter) →
          vocabAfter = v0) ∧
    lookupToken v0 "zz" = v0.unkId :=
  inference_transform_keeps_vocab_frozen tok0 v0 [q0] "zz" rfl

/-- Claim C7: the inference transform is idempotent: running it again on
the same data, starting from the vocabulary state left by the first run,
yields the identical port-to-array mapping (and the same vocabulary). -/
theorem transform_idempotent (tokenize : String → List String) (vocab : Vocab)
    (inputs : List Question) (out1 : XDict) (vocab1 : Vocab)
    (h : inputModuleCall tokenize vocab inputs = Except.ok (out1, vocab1)) :
    inputModuleCall tokenize vocab1 inputs = Except.ok (out1, vocab1) := by
  have hv : vocab1 = vocab := by
    rw [inputModuleCall_ok] at h
    injection h with hpair
    exact (congrArg Prod.snd hpair).symm
  subst hv
  exact h

/-- Witness for claim C7 at a concrete vocabulary and input list. -/
theorem transform_idempotent_witness :
    inputModuleCall tok0 v0 [q0] = Except.ok (out0, v0) :=
  transform_idempotent tok0 v0 [q0] out0 v0 rfl

/-- Unfolding: on a nonempty row, `argmaxFirst` is the first index whose
value dominates the whole row. -/
theorem argmaxFirst_eq_some (row : List ℚ) (h : row ≠ []) :
    argmaxFirst row =
      some (row.findIdx (fun v => decide (∀ w ∈ row, w ≤ v))) := by
  cases row with
  | nil => exact absurd rfl h
  | cons x xs => rfl

/-- Every nonempty row has a maximal element. -/
theorem exists_max_mem (row : List ℚ) (h : row ≠ []) :
    ∃ v ∈ row, ∀ w ∈ row, w ≤ v := by
  induction row with
  | nil => exact absurd rfl h
  | cons x xs ih =>
    rcases eq_or_ne xs [] with hxs | hxs
    · subst hxs
      refine ⟨x, List.mem_cons_self _ _, ?_⟩
      intro w hw
      rcases List.mem_cons.1 hw with rfl | hw
      · exact le_refl _
      · exact absurd hw (List.not_mem_nil _)
    · obtain ⟨v, hv, hle⟩ := ih hxs
      rcases le_total x v with hxv | hvx
      · refine ⟨v, List.mem_cons_of_mem _ hv, ?_⟩
        intro w hw
        rcases List.mem_cons.1 hw with rfl | hw
        · exact hxv
        · exact hle w hw
      · refine ⟨x, List.mem_cons_self _ _, ?_⟩
        intro w hw
        rcases List.mem_cons.1 hw with rfl | hw
        · exact le_refl _
        · exact (hle w hw).trans hvx

/-- Characterization of `argmaxFirst` on a nonempty row: it returns an
in-range index whose value is maximal and which is the first such index
(every earlier entry is strictly smaller). -/
theorem argmaxFirst_spec (row : List ℚ) (h : row ≠ []) :
    ∃ w, argmaxFirst row = some w ∧ w < row.length ∧
      (∀ j, j < row.length → row.getD j 0 ≤ row.getD w 0) ∧
      (∀ j, j < w → row.getD j 0 < row.getD w 0) := by
  obtain ⟨v, hv, hle⟩ := exists_max_mem row h
  have hex : ∃ x ∈ row, (fun u => decide (∀ w ∈ row, w ≤ u)) x = true :=
    ⟨v, hv, by simpa using hle⟩
  have hlt : row.findIdx (fun u => decide (∀ w ∈ row, w ≤ u)) < row.length :=
    List.findIdx_lt_length_of_exists hex
  have hp := @List.findIdx_getElem _ (fun u => decide (∀ w ∈ row, w ≤ u)) row hlt
  have hmax := of_decide_eq_true hp
  refine ⟨row.findIdx (fun u => decide (∀ w ∈ row, w ≤ u)),
    argmaxFirst_eq_some row h, hlt, ?_, ?_⟩
  · intro j hj
    rw [List.getD_eq_getElem _ _ hj, List.getD_eq_getElem _ _ hlt]
    exact hmax _ (List.getElem_mem hj)
  · intro j hj
    have hjlen : j < row.length := lt_trans hj hlt
    have hnot := of_decide_eq_false (List.not_of_lt_findIdx hj)
    push_neg at hnot
    obtain ⟨u, hu, hult⟩ := hnot
    rw [List.getD_eq_getElem _ _ hjlen, List.getD_eq_getElem _ _ hlt]
    exact lt_of_lt_of_le hult (hmax u hu)

/-- When every score row is nonempty, computing all the row argmaxes
succeeds and yields `winningOf`. -/
theorem allSome_winning (scores : List (List ℚ)) (h : ∀ r ∈ scores, r ≠ []) :
    allSome (scores.map argmaxFirst) = Except.ok (winningOf scores) := by
  induction scores with
  | nil => rfl
  | cons r rs ih =>
    obtain ⟨w, hw, _, _, _⟩ := argmaxFirst_spec r (h r (List.mem_cons_self _ _))
    have htail := ih (fun x hx => h x (List.mem_cons_of_mem _ hx))
    simp [allSome, winningOf, hw, htail]

/-- Lemma: `winningOf` has one entry per score row. -/
theorem length_winningOf (scores : List (List ℚ)) :
    (winningOf scores).length = scores.length := by
  simp [winningOf]

/-- Entry `i` of `winningOf` is the argmax of row `i`. -/
theorem winningOf_getD (scores : List (List ℚ)) (i : Nat)
    (hi : i < scores.length) :
    (winningOf scores).getD i 0 = (argmaxFirst (scores.getD i [])).getD 0 := by
  have hi' : i < (winningOf scores).length := by simpa [winningOf] using hi
  rw [List.getD_eq_getElem _ _ hi', List.getD_eq_getElem _ _ hi]
  simp [winningOf]

/-- In-range Python indexing returns the element. -/
theorem exGet_ok {α : Type} (xs : List α) (i : Nat) (d : α)
    (h : i < xs.length) : exGet xs i = Except.ok (xs.getD i d) := by
  rw [List.getD_eq_getElem _ _ h]
  unfold exGet
  rw [List.get?_eq_getElem?, List.getElem?_eq_getElem h]

/-- An in-range `getD` is a member of the list. -/
theorem getD_mem_scores (scores : List (List ℚ)) (i : Nat)
    (hi : i < scores.length) : scores.getD i [] ∈ scores := by
  rw [List.getD_eq_getElem _ _ hi]
  exact List.getElem_mem hi

/-- The decoding loop succeeds when the score data covers every question
and all indices are in range, and the i-th answer is built from the i-th
question, the i-th winning index and the i-th score row. -/
theorem decodeAnswers_ok (inputs : List Question) :
    ∀ (ws : List Nat) (rows : List (List ℚ)),
      inputs.length ≤ ws.length → inputs.length ≤ rows.length →
      (∀ i, i < inputs.length →
        ws.getD i 0 < (rows.getD i []).length ∧
        ws.getD i 0 < ((inputs.getD i default).candidates).length) →
      ∃ answers, decodeAnswers inputs ws rows = Except.ok answers ∧
        answers.length = inputs.length ∧
        ∀ i, i < inputs.length →
          answers.getD i default =
            { text := ((inputs.getD i default).candidates).getD (ws.getD i 0) ""
              score := (rows.getD i []).getD (ws.getD i 0) 0 } := by
  induction inputs with
  | nil =>
    intro ws rows _ _ _
    exact ⟨[], rfl, rfl, fun i hi => absurd hi (Nat.not_lt_zero i)⟩
  | cons q qs ih =>
    intro ws rows h1 h2 h3
    cases ws with
    | nil => simp at h1
    | cons w ws =>
      cases rows with
      | nil => simp at h2
      | cons row rows =>
        have h30 := h3 0 (Nat.succ_pos _)
        rw [List.getD_cons_zero, List.getD_cons_zero, List.getD_cons_zero] at h30
        obtain ⟨hwrow, hwcand⟩ := h30
        have h1' : qs.length ≤ ws.length := by simpa using h1
        have h2' : qs.length ≤ rows.length := by simpa using h2
        have h3' : ∀ i, i < qs.length →
            ws.getD i 0 < (rows.getD i []).length ∧
            ws.getD i 0 < ((qs.getD i default).candidates).length := by
          intro i hi
          have := h3 (i + 1) (by simpa using hi)
          simpa [List.getD_cons_succ] using this
        obtain ⟨answers, hdec, hlen, hform⟩ := ih ws rows h1' h2' h3'
        refine ⟨{ text := q.candidates.getD w "", score := row.getD w 0 } :: answers,
          ?_, by simpa using hlen, ?_⟩
        · simp only [decodeAnswers, exGet_ok row w 0 hwrow,
            exGet_ok q.candidates w "" hwcand, hdec]
        · intro i hi
          cases i with
          | zero => simp
          | succ i => simpa [List.getD_cons_succ] using hform i (by simpa using hi)

/-- The decoding loop only consumes the first `inputs.length` entries of
the winning indices and the score rows. -/
theorem decodeAnswers_take (inputs : List Question) :
    ∀ (ws : List Nat) (rows : List (List ℚ)),
      decodeAnswers inputs ws rows =
        decodeAnswers inputs (ws.take inputs.length)
          (rows.take inputs.length) := by
  induction inputs with
  | nil => intro ws rows; rfl
  | cons q qs ih =>
    intro ws rows
    cases ws with
    | nil =>
      cases rows with
      | nil => rfl
      | cons row rows =>
        simp [decodeAnswers, List.length_cons, List.take_succ_cons]
    | cons w ws =>
      cases rows with
      | nil => simp [decodeAnswers, List.length_cons, List.take_succ_cons]
      | cons row rows =>
        simp only [List.length_cons, List.take_succ_cons, decodeAnswers]
        rw [ih ws rows]

/-- Once every score row is nonempty, the output module call reduces to the
decoding loop over the winning indices. -/
theorem exampleOutputCall_eq (inputs : List Question) (scores : List (List ℚ))
    (h : ∀ r ∈ scores, r ≠ []) :
    exampleOutputCall inputs scores =
      decodeAnswers inputs (winningOf scores) scores := by
  unfold exampleOutputCall
  rw [allSome_winning scores h]

/-- The winning index is in range of both the score row and the candidate
list, provided the row is no longer than the candidate list. -/
theorem winning_conditions (inputs : List Question) (scores : List (List ℚ))
    (hge : inputs.length ≤ scores.length)
    (hne : ∀ r ∈ scores, r ≠ [])
    (hcand : ∀ i, i < inputs.length →
      (scores.getD i []).length ≤ ((inputs.getD i default).candidates).length) :
    ∀ i, i < inputs.length →
      (winningOf scores).getD i 0 < (scores.getD i []).length ∧
      (winningOf scores).getD i 0 <
        ((inputs.getD i default).candidates).length := by
  intro i hi
  have hi' : i < scores.length := by omega
  obtain ⟨w, hw, hwlt, _, _⟩ :=
    argmaxFirst_spec _ (hne _ (getD_mem_scores scores i hi'))
  rw [winningOf_getD scores i hi', hw, Option.getD_some]
  exact ⟨hwlt, lt_of_lt_of_le hwlt (hcand i hi)⟩

/-- Claim C2: with one score row per question, the output decoder returns,
for each example, an Answer whose text is the candidate string at the index
of the maximum score of that example's row — ties broken by the lowest
index — taken from that question's candidate list, and whose confidence is
the winning score. -/
theorem output_decoder_selects_first_max (inputs : List Question)
    (scores : List (List ℚ))
    (hrows : scores.length = inputs.length)
    (hne : ∀ r ∈ scores, r ≠ [])
    (hcand : ∀ i, i < inputs.length →
      (scores.getD i []).length ≤ ((inputs.getD i default).candidates).length) :
    ∃ answers, exampleOutputCall inputs scores = Except.ok answers ∧
      answers.length = inputs.length ∧
      ∀ i, i < inputs.length → ∃ w, w < (scores.getD i []).length ∧
        (∀ j, j < (scores.getD i []).length →
          (scores.getD i []).getD j 0 ≤ (scores.getD i []).getD w 0) ∧
        (∀ j, j < w →
          (scores.getD i []).getD j 0 < (scores.getD i []).getD w 0) ∧
        answers.getD i default =
          { text := ((inputs.getD i default).candidates).getD w ""
            score := (scores.getD i []).getD w 0 } := by
  have hge : inputs.length ≤ scores.length := by omega
  have hcond := winning_conditions inputs scores hge hne hcand
  obtain ⟨answers, hdec, hlen, hform⟩ :=
    decodeAnswers_ok inputs (winningOf scores) scores
      (by rw [length_winningOf]; omega) (by omega) hcond
  refine ⟨answers, ?_, hlen, ?_⟩
  · rw [exampleOutputCall_eq inputs scores hne]
    exact hdec
  · intro i hi
    have hi' : i < scores.length := by omega
    obtain ⟨w, hw, hwlt, hmax, hfirst⟩ :=
      argmaxFirst_spec _ (hne _ (getD_mem_scores scores i hi'))
    have hwin : (winningOf scores).getD i 0 = w := by
      rw [winningOf_getD scores i hi', hw, Option.getD_some]
    refine ⟨w, hwlt, hmax, hfirst, ?_⟩
    have hfi := hform i hi
    rw [hwin] at hfi
    exact hfi

/-- Witness for claim C2: one question with candidates `x`, `y` and score
row `[1, 2]`. -/
theorem output_decoder_selects_first_max_witness :
    ∃ answers, exampleOutputCall [q1] [[1, 2]] = Except.ok answers ∧
      answers.length = [q1].length ∧
      ∀ i, i < [q1].length → ∃ w,
        w < (([[1, 2]] : List (List ℚ)).getD i []).length ∧
        (∀ j, j < (([[1, 2]] : List (List ℚ)).getD i []).length →
          (([[1, 2]] : List (List ℚ)).getD i []).getD j 0 ≤
            (([[1, 2]] : List (List ℚ)).getD i []).getD w 0) ∧
        (∀ j, j < w →
          (([[1, 2]] : List (List ℚ)).getD i []).getD j 0 <
            (([[1, 2]] : List (List ℚ)).getD i []).getD w 0) ∧
        answers.getD i default =
          { text := (([q1].getD i default).candidates).getD w ""
            score := (([[1, 2]] : List (List ℚ)).getD i []).getD w 0 } :=
  output_decoder_selects_first_max [q1] [[1, 2]] rfl (by decide) (by decide)

/-- Claim C10: whenever the score matrix has at least as many rows as there
are questions, the call returns exactly one Answer per question, the i-th
derived from the i-th question and the i-th score row, and extra score rows
are silently ignored: truncating the matrix to the first
`inputs.length` rows yields the same result. -/
theorem output_decoder_ignores_extra_rows (inputs : List Question)
    (scores : List (List ℚ))
    (hge : inputs.length ≤ scores.length)
    (hne : ∀ r ∈ scores, r ≠ [])
    (hcand : ∀ i, i < inputs.length →
      (scores.getD i []).length ≤ ((inputs.getD i default).candidates).length) :
    ∃ answers, exampleOutputCall inputs scores = Except.ok answers ∧
      answers.length = inputs.length ∧
      (∀ i, i < inputs.length → ∃ w,
        argmaxFirst (scores.getD i []) = some w ∧
        answers.getD i default =
          { text := ((inputs.getD i default).candidates).getD w ""
            score := (scores.getD i []).getD w 0 }) ∧
      exampleOutputCall inputs (scores.take inputs.length) =
        Except.ok answers := by
  have hcond := winning_conditions inputs scores hge hne hcand
  obtain ⟨answers, hdec, hlen, hform⟩ :=
    decodeAnswers_ok inputs (winningOf scores) scores
      (by rw [length_winningOf]; omega) (by omega) hcond
  have hcall : exampleOutputCall inputs scores = Except.ok answers := by
    rw [exampleOutputCall_eq inputs scores hne]
    exact hdec
  refine ⟨answers, hcall, hlen, ?_, ?_⟩
  · intro i hi
    have hi' : i < scores.length := by omega
    obtain ⟨w, hw, _, _, _⟩ :=
      argmaxFirst_spec _ (hne _ (getD_mem_scores scores i hi'))
    have hwin : (winningOf scores).getD i 0 = w := by
      rw [winningOf_getD scores i hi', hw, Option.getD_some]
    refine ⟨w, hw, ?_⟩
    have hfi := hform i hi
    rw [hwin] at hfi
    exact hfi
  · have htr := exampleOutputCall_eq inputs (scores.take inputs.length)
      (fun r hr => hne r (List.mem_of_mem_take hr))
    have hwin_take : winningOf (scores.take inputs.length) =
        (winningOf scores).take inputs.length := by
      simp [winningOf, List.map_take]
    rw [htr, hwin_take, ← decodeAnswers_take inputs (winningOf scores) scores]
    exact hdec

/-- Witness for claim C10: one question with candidates `x`, `y` and a
two-row score matrix; the second row is ignored. -/
theorem output_decoder_ignores_extra_rows_witness :
    ∃ answers,
      exampleOutputCall [q1] [[1, 2], [5, 0]] = Except.ok answers ∧
      answers.length = [q1].length ∧
      (∀ i, i < [q1].length → ∃ w,
        argmaxFirst (([[1, 2], [5, 0]] : List (List ℚ)).getD i []) = some w ∧
        answers.getD i default =
          { text := (([q1].getD i default).candidates).getD w ""
            score := (([[1, 2], [5, 0]] : List (List ℚ)).getD i []).getD w 0 }) ∧
      exampleOutputCall [q1]
        (([[1, 2], [5, 0]] : List (List ℚ)).take [q1].length) =
        Except.ok answers :=
  output_decoder_ignores_extra_rows [q1] [[1, 2], [5, 0]]
    (by decide) (by decide) (by decide)

/-- Claim C8: the input adapter declares output ports `multiple_support`,
`question`, `atomic_candidates` plus the training port `candidate_labels`,
and the scoring model declares its training input ports as its input ports
extended by `candidate_labels`; the two components' declared port sets
match. -/
theorem declared_ports_match :
    SimpleMCInputModule.output_ports =
      [TensorPort.multiple_support, TensorPort.question,
       TensorPort.atomic_candidates] ∧
    SimpleMCInputModule.training_ports = [TensorPort.candidate_labels] ∧
    SimpleMCModelModule.input_ports = SimpleMCInputModule.output_ports ∧
    SimpleMCModelModule.training_input_ports =
      SimpleMCModelModule.input_ports ++ [TensorPort.candidate_labels] ∧
    SimpleMCModelModule.training_input_ports =
      SimpleMCInputModule.output_ports ++ SimpleMCInputModule.training_ports := by
  refine ⟨rfl, rfl, rfl, rfl, rfl⟩

/-- Claim C9 (code bug): for every tokenizer, vocabulary, dataset and either
value of `is_eval`, `dataset_generator` raises: its first statement
`corpus, _ = self.preprocess(dataset)` unpacks the four-key corpus
dictionary returned by `preprocess` into two names, a `ValueError`.  In
particular its outcome is independent of `is_eval`, but it never emits any
batch, so the `candidate_labels` port is never produced. -/
theorem dataset_generator_always_raises (tokenize : String → List String)
    (vocab : Vocab) (dataset : List (Question × Answer)) (is_eval : Bool) :
    dataset_generator tokenize vocab dataset is_eval =
      Except.error "ValueError: too many values to unpack (expected 2)" :=
  rfl

end SimpleMCQA
